import Mathlib

set_option maxHeartbeats 1000000
set_option maxRecDepth 4000

/-!
Shallow embedding of the core of `src/src/App.tsx` (a React single-file app
managing numeric records, a composite-product checker, a command engine with a
bounded history, a search filter and localStorage persistence).

Pure functions become Lean functions; the React state updates become explicit
state-passing functions on the record / command-history lists.  JavaScript
numbers that the validator has certified integral are modelled as `Int`; a
number that may fail `Number.isInteger` is modelled by `JsNum`.  Nondeterministic
inputs (fresh ids from `uid`, timestamps from `Date`) are passed as parameters.
-/

/-- Return type of `isCompositeProduct` in the source. -/
structure CheckResult where
  result : Bool
  explanation : String
deriving Repr, DecidableEq

/-- A JavaScript number as the checker's integrality test sees it: either an
integer value, or some non-integer number (fractional, NaN, ±Infinity) — the
code never looks at a non-integer's value, so one constructor suffices. -/
inductive JsNum where
  | int (v : Int)
  | nonint
deriving Repr, DecidableEq

/-- The single ineligibility message of `isCompositeProduct`. -/
def notEligibleMsg : String :=
  "Must be an integer greater than 3 (smallest product is 2*2)."

/-- The divisor scan `for (let i = 2; i*i <= n; i++) if (n % i === 0) ...` of
`isCompositeProduct`, returning the first divisor found, if any.  The loop only
runs on integers `n > 3`, so it is modelled on `Nat`. -/
def findDivisor (n i : Nat) : Option Nat :=
  if h : i * i ≤ n then
    if n % i = 0 then some i else findDivisor n (i + 1)
  else none
termination_by n + 2 - i
decreasing_by
  rcases Nat.eq_zero_or_pos i with h0 | h1
  · omega
  · have h2 : 1 * i ≤ i * i := Nat.mul_le_mul_right i h1
    omega

/-- `isCompositeProduct` from `src/src/App.tsx` lines 56–80, on an integer
argument (the `!Number.isInteger(n)` disjunct is handled by
`isCompositeProductJs` below). -/
def isCompositeProduct (n : Int) : CheckResult :=
  if n ≤ 3 then
    { result := false, explanation := notEligibleMsg }
  else
    match findDivisor n.toNat 2 with
    | some i =>
      { result := true,
        explanation :=
          toString n ++ " = " ++ toString i ++ " × " ++ toString (n.toNat / i) }
    | none =>
      { result := false,
        explanation :=
          toString n ++
            " is prime — it cannot be expressed as product of two integers > 1." }

/-- `isCompositeProduct` on an arbitrary JavaScript number: a non-integer takes
the `!Number.isInteger(n)` early return. -/
def isCompositeProductJs : JsNum → CheckResult
  | .nonint => { result := false, explanation := notEligibleMsg }
  | .int v => isCompositeProduct v

/-- `RecordItem` from the source (`label?: string` becomes `Option String`). -/
structure RecordItem where
  id : String
  label : Option String
  value : Int
  createdAt : String
deriving Repr, DecidableEq

/-- `CommandRun` from the source (`recordId: string | null` becomes
`Option String`). -/
structure CommandRun where
  id : String
  recordId : Option String
  command : String
  output : String
  startedAt : String
deriving Repr, DecidableEq

/-- JavaScript `s.toLowerCase()`, modelled character-wise. -/
def strToLower (s : String) : String :=
  String.mk (s.toList.map Char.toLower)

/-- JavaScript substring test `s.includes(q)` on explicit character lists. -/
def containsSub (s q : List Char) : Bool :=
  q.isPrefixOf s ||
    match s with
    | [] => false
    | _ :: t => containsSub t q

/-- JavaScript `s.includes(q)`. -/
def strIncludes (s q : String) : Bool :=
  containsSub s.toList q.toList

/-- The filter predicate of the `filtered` memo (lines 119–129):
`r.label?.toLowerCase().includes(q) || String(r.value).includes(q) ||
r.id.toLowerCase().includes(q)` for an already trimmed-and-lowercased `q`. -/
def matchesQuery (r : RecordItem) (q : String) : Bool :=
  (match r.label with
   | some l => strIncludes (strToLower l) q
   | none => false) ||
  strIncludes (toString r.value) q ||
  strIncludes (strToLower r.id) q

/-- The `filtered` memo: trim and lowercase the query; a falsy (empty) result
returns the records unfiltered, otherwise filter by `matchesQuery`. -/
def searchRecords (records : List RecordItem) (query : String) : List RecordItem :=
  let q := strToLower query.trim
  if q = "" then records
  else records.filter (fun r => matchesQuery r q)

/-- JavaScript truthiness of `opts.recordId : string | null | undefined`:
`null`/`undefined` and the empty string are falsy. -/
def isTruthyId : Option String → Bool
  | none => false
  | some s => decide (s ≠ "")

/-- The `output` computed by `runCommand` (lines 161–183): dispatch on the
command name, guarded by truthiness of `opts.recordId` for `"check"`. -/
def commandOutput (records : List RecordItem) (recordId : Option String)
    (command : String) : String :=
  if command = "check" ∧ isTruthyId recordId = true then
    match records.find? (fun r => decide (some r.id = recordId)) with
    | none => "Record not found (it may have been deleted)."
    | some rec =>
      let res := isCompositeProduct rec.value
      (if res.result then "YES" else "NO") ++ ": " ++ res.explanation
  else if command = "check:all" then
    String.intercalate "\n\n"
      (records.map (fun r =>
        let res := isCompositeProduct r.value
        r.id ++ " (" ++ toString r.value ++ ") → " ++
          (if res.result then "YES" else "NO") ++ ": " ++ res.explanation))
  else
    "Unknown command: " ++ command

/-- The `CommandRun` value built by `runCommand` (lines 185–191); the fresh id
and the timestamp are parameters. -/
def mkCommandRun (records : List RecordItem) (cmdId startedAt : String)
    (recordId : Option String) (command : String) : CommandRun :=
  { id := cmdId, recordId := recordId, command := command,
    output := commandOutput records recordId command, startedAt := startedAt }

/-- The history update of `runCommand`:
`setCommands((s) => [cmd, ...s].slice(0, 200))`. -/
def runCommand (records : List RecordItem) (commands : List CommandRun)
    (cmdId startedAt : String) (recordId : Option String) (command : String) :
    List CommandRun :=
  (mkCommandRun records cmdId startedAt recordId command :: commands).take 200

/-- One requested command run: the nondeterministic inputs (fresh id,
timestamp) together with the arguments of `runCommand`. -/
structure RunReq where
  cmdId : String
  startedAt : String
  recordId : Option String
  command : String
deriving Repr, DecidableEq

/-- Run a batch of commands in order against a fixed record collection,
threading the history. -/
def runMany (records : List RecordItem) (commands : List CommandRun) :
    List RunReq → List CommandRun
  | [] => commands
  | q :: rest =>
    runMany records (runCommand records commands q.cmdId q.startedAt q.recordId q.command) rest

/-- The single-run shape of every entry `runMany` builds. -/
def reqRun (records : List RecordItem) (q : RunReq) : CommandRun :=
  mkCommandRun records q.cmdId q.startedAt q.recordId q.command

/-- `handleDelete`'s record update: `s.filter((r) => r.id !== id)`. -/
def deleteRecord (records : List RecordItem) (id : String) : List RecordItem :=
  records.filter (fun r => decide (r.id ≠ id))

/-- `handleDelete`'s cascade on the history:
`s.filter((c) => c.recordId !== id)` — a `null` recordId never equals the
string `id`, so those entries are kept. -/
def pruneCommands (commands : List CommandRun) (id : String) : List CommandRun :=
  commands.filter (fun c => decide (c.recordId ≠ some id))

/-- `handleDelete` (lines 153–158): both state updates. -/
def handleDelete (records : List RecordItem) (commands : List CommandRun)
    (id : String) : List RecordItem × List CommandRun :=
  (deleteRecord records id, pruneCommands commands id)

/-- `values.label?.trim() || undefined` of `handleCreate`. -/
def normalizeLabel : Option String → Option String
  | none => none
  | some l => if l.trim = "" then none else some l.trim

/-- `handleCreate` (lines 132–150): the `Number.isInteger` guard notifies an
error and leaves the collection untouched; otherwise the new record is
prepended.  The error notification is modelled as `Except.error`. -/
def handleCreate (records : List RecordItem) (label : Option String)
    (num : JsNum) (newId ts : String) : Except String (List RecordItem) :=
  match num with
  | .nonint => .error "Value must be an integer"
  | .int v =>
    .ok ({ id := newId, label := normalizeLabel label, value := v,
           createdAt := ts } :: records)

/-- The record collection after `handleCreate`: unchanged when the validator
rejected the value (the early `return`), the new list otherwise. -/
def recordsAfterCreate (records : List RecordItem) (label : Option String)
    (num : JsNum) (newId ts : String) : List RecordItem :=
  match handleCreate records label num newId ts with
  | .error _ => records
  | .ok rs => rs

/-!
### Persistence (C8)

`App.tsx` persists the two collections with `localStorage` plus the platform
builtins `JSON.stringify` / `JSON.parse` (the parsed value is cast to
`RecordItem[]`).  Those builtins are not part of this repository, so they are
modelled from the spec below (`encodeChar` … `parseRecords`); `loadRecords` /
`saveRecords` then mirror the source's own try/catch structure (lines 89–96,
111–113).
-/

/-- The sixteen lowercase hex digit characters. -/
def hexDigits : List Char := "0123456789abcdef".toList

/-- The hex digit character for a value below 16. -/
def hexDigitChar (n : Nat) : Char := hexDigits.getD n '0'

/-- Modelled from the spec (`JSON.stringify`, a platform builtin): JSON string
escaping of one character — `"` and `\` get a backslash escape, control
characters below U+0020 the `\u00XX` form, everything else stands for
itself. -/
def encodeChar (c : Char) : List Char :=
  if c = '"' then ['\\', '"']
  else if c = '\\' then ['\\', '\\']
  else if c.toNat < 32 then
    ['\\', 'u', '0', '0', hexDigitChar (c.toNat / 16), hexDigitChar (c.toNat % 16)]
  else [c]

/-- Modelled from the spec: a JSON string literal, quotes included. -/
def encodeString (s : String) : List Char :=
  '"' :: (s.toList.map encodeChar).flatten ++ ['"']

/-- The decimal digits of a natural number, most significant first. -/
def natDigits (n : Nat) : List Char :=
  if _h : n < 10 then [hexDigitChar n]
  else natDigits (n / 10) ++ [hexDigitChar (n % 10)]
termination_by n
decreasing_by exact Nat.div_lt_self (by omega) (by omega)

/-- Modelled from the spec: the JSON number token for an integer value. -/
def intChars (i : Int) : List Char :=
  if i < 0 then '-' :: natDigits i.natAbs else natDigits i.toNat

/-- Modelled from the spec: `JSON.stringify` of one record object — fields in
insertion order `id, label, value, createdAt`, with an undefined `label`
omitted, as `JSON.stringify` omits `undefined` properties. -/
def encodeRecord (r : RecordItem) : List Char :=
  ("\x7b\"id\":").toList ++ encodeString r.id ++
  (match r.label with
   | none => []
   | some l => (",\"label\":").toList ++ encodeString l) ++
  (",\"value\":").toList ++ intChars r.value ++
  (",\"createdAt\":").toList ++ encodeString r.createdAt ++ ['}']

/-- Comma-join of already-encoded items. -/
def joinComma : List (List Char) → List Char
  | [] => []
  | [x] => x
  | x :: xs => x ++ ',' :: joinComma xs

/-- Modelled from the spec: `JSON.stringify` of the records array. -/
def encodeRecords (rs : List RecordItem) : List Char :=
  '[' :: joinComma (rs.map encodeRecord) ++ [']']

/-- Modelled from the spec: the serialized text `save` writes. -/
def stringifyRecords (rs : List RecordItem) : String :=
  String.mk (encodeRecords rs)

/-- The value of a hex digit character, if it is one. -/
def hexVal (c : Char) : Option Nat :=
  if '0' ≤ c ∧ c ≤ '9' then some (c.toNat - 48)
  else if 'a' ≤ c ∧ c ≤ 'f' then some (c.toNat - 87)
  else if 'A' ≤ c ∧ c ≤ 'F' then some (c.toNat - 55)
  else none

/-- Modelled from the spec: parse the body of a JSON string literal (after the
opening quote), handling the `\"`, `\\` and `\uXXXX` escapes the encoder can
emit; anything else malformed fails. -/
def decodeStringAux (l : List Char) (acc : List Char) :
    Option (String × List Char) :=
  match l with
  | [] => none
  | c :: rest =>
    if c = '"' then some (String.mk acc.reverse, rest)
    else if c = '\\' then
      match rest with
      | [] => none
      | e :: rest2 =>
        if e = '"' then decodeStringAux rest2 ('"' :: acc)
        else if e = '\\' then decodeStringAux rest2 ('\\' :: acc)
        else if e = 'u' then
          match rest2 with
          | h1 :: h2 :: h3 :: h4 :: rest3 =>
            match hexVal h1, hexVal h2, hexVal h3, hexVal h4 with
            | some v1, some v2, some v3, some v4 =>
              decodeStringAux rest3
                (Char.ofNat (((v1 * 16 + v2) * 16 + v3) * 16 + v4) :: acc)
            | _, _, _, _ => none
          | _ => none
        else none
    else decodeStringAux rest (c :: acc)

/-- Modelled from the spec: parse a JSON string literal. -/
def parseJString (l : List Char) : Option (String × List Char) :=
  match l with
  | '"' :: rest => decodeStringAux rest []
  | _ => none

/-- Fold further decimal digits onto an accumulated value; stops at the first
non-digit. -/
def parseDigitsAux (l : List Char) (acc : Nat) : Nat × List Char :=
  match l with
  | [] => (acc, [])
  | c :: rest =>
    if c.isDigit then parseDigitsAux rest (acc * 10 + (c.toNat - 48))
    else (acc, c :: rest)

/-- Parse a nonempty run of decimal digits. -/
def parseNatChars (l : List Char) : Option (Nat × List Char) :=
  match l with
  | [] => none
  | c :: rest =>
    if c.isDigit then some (parseDigitsAux rest (c.toNat - 48)) else none

/-- Modelled from the spec: parse a JSON integer token. -/
def parseIntChars (l : List Char) : Option (Int × List Char) :=
  match l with
  | '-' :: rest =>
    match parseNatChars rest with
    | some (n, rest2) => some (-(n : Int), rest2)
    | none => none
  | _ =>
    match parseNatChars l with
    | some (n, rest2) => some ((n : Int), rest2)
    | none => none

/-- Consume an expected literal character sequence. -/
def expectLit : List Char → List Char → Option (List Char)
  | [], l => some l
  | c :: lit, d :: l => if c = d then expectLit lit l else none
  | _ :: _, [] => none

/-- Parse the `value` and `createdAt` fields and the closing brace of a record
object whose `id` (and optional `label`) have been consumed. -/
def finishRecord (idS : String) (lab : Option String) (l : List Char) :
    Option (RecordItem × List Char) :=
  match expectLit ((",\"value\":").toList) l with
  | none => none
  | some l1 =>
    match parseIntChars l1 with
    | none => none
    | some (v, l2) =>
      match expectLit ((",\"createdAt\":").toList) l2 with
      | none => none
      | some l3 =>
        match parseJString l3 with
        | none => none
        | some (ts, l4) =>
          match l4 with
          | '}' :: l5 =>
            some ({ id := idS, label := lab, value := v, createdAt := ts }, l5)
          | _ => none

/-- Modelled from the spec: parse one serialized record object, with the
optional `label` field present or absent. -/
def parseRecord (l : List Char) : Option (RecordItem × List Char) :=
  match expectLit (("\x7b\"id\":").toList) l with
  | none => none
  | some l1 =>
    match parseJString l1 with
    | none => none
    | some (idS, l2) =>
      match expectLit ((",\"label\":").toList) l2 with
      | some l3 =>
        match parseJString l3 with
        | none => none
        | some (labS, l4) => finishRecord idS (some labS) l4
      | none => finishRecord idS none l2

/-- Parse a comma-separated sequence of record objects up to the closing `]`,
which must end the input; the fuel bounds the number of items. -/
def parseItems : Nat → List Char → Option (List RecordItem)
  | 0, _ => none
  | Nat.succ fuel, l =>
    match parseRecord l with
    | none => none
    | some (r, rest) =>
      match rest with
      | ',' :: rest2 =>
        match parseItems fuel rest2 with
        | some rs => some (r :: rs)
        | none => none
      | [']'] => some [r]
      | _ => none

/-- Modelled from the spec: `JSON.parse` of the stored text, checked against
the expected shape (an array of record objects); any other input fails. -/
def parseRecords (s : String) : Option (List RecordItem) :=
  match s.toList with
  | '[' :: rest =>
    match rest with
    | [']'] => some []
    | _ => parseItems rest.length rest
  | _ => none

/-- `save` for the records collection:
`localStorage.setItem(LS_RECORDS, JSON.stringify(records))`. -/
def saveRecords (rs : List RecordItem) : Option String :=
  some (stringifyRecords rs)

/-- `load` for the records collection (lines 89–96): an absent stored value or
a falsy (empty) raw string yields `[]`; a parse failure (the `JSON.parse`
throw, or a value not of the expected shape) is caught and yields `[]`. -/
def loadRecords (stored : Option String) : List RecordItem :=
  match stored with
  | none => []
  | some raw =>
    if raw = "" then []
    else
      match parseRecords raw with
      | some v => v
      | none => []

/-! ### Helper lemmas -/

lemma strToLower_eq_empty_iff (s : String) : strToLower s = "" ↔ s = "" := by
  cases s with
  | mk data =>
    simp [strToLower, String.ext_iff, String.toList]

lemma take_append_take {α : Type} (xs ys : List α) (n : Nat) :
    (xs ++ ys.take n).take n = (xs ++ ys).take n := by
  rw [List.take_append_eq_append_take, List.take_append_eq_append_take,
    List.take_take]
  congr 1
  exact congrArg (fun m => ys.take m) (Nat.min_eq_left (Nat.sub_le n xs.length))

lemma runMany_eq_take (records : List RecordItem) :
    ∀ (batch : List RunReq) (commands : List CommandRun), batch ≠ [] →
      runMany records commands batch =
        ((batch.map (reqRun records)).reverse ++ commands).take 200 := by
  intro batch
  induction batch with
  | nil => intro commands h; exact absurd rfl h
  | cons q rest ih =>
    intro commands _
    cases hrest : rest with
    | nil =>
      simp [runMany, runCommand, reqRun]
    | cons q2 rest2 =>
      subst hrest
      have hne : (q2 :: rest2 : List RunReq) ≠ [] := by simp
      have step : runMany records commands (q :: q2 :: rest2) =
          runMany records
            (runCommand records commands q.cmdId q.startedAt q.recordId q.command)
            (q2 :: rest2) := rfl
      rw [step, ih _ hne, runCommand]
      have hsplit : (mkCommandRun records q.cmdId q.startedAt q.recordId
          q.command :: commands) = [reqRun records q] ++ commands := rfl
      rw [hsplit, take_append_take]
      simp [List.append_assoc]

/-! ### C10 — `"check"` with an absent or empty recordId is an unknown command -/

/-- C10: running `"check"` with `recordId` absent (`null`/`undefined`) or the
empty string does not produce a record-not-found message and does not raise;
the guard `opts.recordId` is falsy, so the dispatch falls through to the
unknown-command branch and the stored, successful `CommandRun` has output
`"Unknown command: check"`; it is prepended to the history like any run. -/
theorem checkWithFalsyRecordIdIsUnknownCommand :
    ∀ (records : List RecordItem) (commands : List CommandRun)
      (cmdId started : String),
      (mkCommandRun records cmdId started none "check").output =
          "Unknown command: check" ∧
      (mkCommandRun records cmdId started (some "") "check").output =
          "Unknown command: check" ∧
      runCommand records commands cmdId started none "check" =
        (mkCommandRun records cmdId started none "check" :: commands).take 200 := by
  intro records commands cmdId started
  refine ⟨?_, ?_, rfl⟩ <;> simp [mkCommandRun, commandOutput, isTruthyId]

/-! ### C5 — deletion removes the record, cascades to history, idempotent -/

/-- C5: after `handleDelete records commands id`, no surviving record has that
`id` and no surviving `CommandRun` references it (cascade); deleting an absent
id is a no-op rather than an error, hence running the deletion twice produces
the same final state as running it once. -/
theorem deleteCascadesAndIsIdempotent :
    ∀ (records : List RecordItem) (commands : List CommandRun) (id : String),
      (∀ r ∈ (handleDelete records commands id).1, r.id ≠ id) ∧
      (∀ c ∈ (handleDelete records commands id).2, c.recordId ≠ some id) ∧
      handleDelete (handleDelete records commands id).1
          (handleDelete records commands id).2 id =
        handleDelete records commands id := by
  intro records commands id
  refine ⟨?_, ?_, ?_⟩
  · intro r hr
    have h2 := List.of_mem_filter hr
    simpa using h2
  · intro c hc
    have h2 := List.of_mem_filter hc
    simpa using h2
  · refine Prod.ext ?_ ?_ <;>
      dsimp only [handleDelete, deleteRecord, pruneCommands] <;>
      (rw [List.filter_eq_self]; intro a ha;
        have h3 := List.of_mem_filter ha; exact h3)

/-! ### C9 — creation validates, normalizes the label, prepends -/

/-- C9: `handleCreate` fails with the validation error exactly when the value
is not an integer, and then the collection is unchanged; on an integer value it
creates exactly one record — label trimmed, empty label normalized to absent —
and prepends it, leaving the rest of the collection as it was (newest-first). -/
theorem createValidatesAndPrepends :
    ∀ (records : List RecordItem) (label : Option String) (newId ts : String)
      (v : Int),
      handleCreate records label JsNum.nonint newId ts =
          .error "Value must be an integer" ∧
      recordsAfterCreate records label JsNum.nonint newId ts = records ∧
      handleCreate records label (JsNum.int v) newId ts =
        .ok ({ id := newId,
               label := match label with
                        | none => none
                        | some l => if l.trim = "" then none else some l.trim,
               value := v, createdAt := ts } :: records) ∧
      recordsAfterCreate records label (JsNum.int v) newId ts =
        { id := newId,
          label := match label with
                   | none => none
                   | some l => if l.trim = "" then none else some l.trim,
          value := v, createdAt := ts } :: records := by
  intro records label newId ts v
  cases label <;>
    simp [handleCreate, recordsAfterCreate, normalizeLabel]

/-! ### C2 — every ineligible input gets the same false result -/

/-- C2: any non-integer input and any integer `n ≤ 3` (negatives, 0, 1, 2, 3
alike) yield `result = false` with the one explanation naming the minimum
valid input, with no error raised and no distinction of the reason. -/
theorem ineligibleInputsAllFalse :
    ∀ n : Int, n ≤ 3 →
      isCompositeProduct n = { result := false, explanation := notEligibleMsg } ∧
      isCompositeProductJs (JsNum.int n) =
          { result := false, explanation := notEligibleMsg } ∧
      isCompositeProductJs JsNum.nonint =
          { result := false, explanation := notEligibleMsg } := by
  intro n hn
  have h : isCompositeProduct n =
      { result := false, explanation := notEligibleMsg } := by
    rw [isCompositeProduct, if_pos hn]
  exact ⟨h, by rw [isCompositeProductJs, h], rfl⟩

/-- Closed witness for C2 at `n = -7`. -/
theorem ineligibleInputsAllFalse_witness :
    isCompositeProduct (-7) = { result := false, explanation := notEligibleMsg } ∧
    isCompositeProductJs (JsNum.int (-7)) =
        { result := false, explanation := notEligibleMsg } ∧
    isCompositeProductJs JsNum.nonint =
        { result := false, explanation := notEligibleMsg } :=
  ineligibleInputsAllFalse (-7) (by decide)

/-! ### C4 — the engine never raises: soft "not found" and "unknown command" -/

/-- C4: `runCommand` is total.  With a present (truthy) `recordId` that matches
no record, `"check"` produces a successful `CommandRun` whose output is the
human-readable not-found message; any command name other than `"check"` and
`"check:all"` produces one whose output is exactly `"Unknown command: <cmd>"`;
both runs are prepended to the history exactly like any other run. -/
theorem runCommandNeverRaises :
    ∀ (records : List RecordItem) (commands : List CommandRun)
      (cmdId started rid command : String),
      rid ≠ "" →
      (∀ r ∈ records, r.id ≠ rid) →
      command ≠ "check" →
      command ≠ "check:all" →
      (mkCommandRun records cmdId started (some rid) "check").output =
          "Record not found (it may have been deleted)." ∧
      (mkCommandRun records cmdId started (some rid) command).output =
          "Unknown command: " ++ command ∧
      runCommand records commands cmdId started (some rid) "check" =
        (mkCommandRun records cmdId started (some rid) "check" ::
          commands).take 200 ∧
      runCommand records commands cmdId started (some rid) command =
        (mkCommandRun records cmdId started (some rid) command ::
          commands).take 200 := by
  intro records commands cmdId started rid command hrid hnone hc hca
  refine ⟨?_, ?_, rfl, rfl⟩
  · have hfind : records.find? (fun r => decide (r.id = rid)) = none := by
      rw [List.find?_eq_none]
      intro r hr
      simp [hnone r hr]
    simp [mkCommandRun, commandOutput, isTruthyId, hrid, hfind]
  · simp [mkCommandRun, commandOutput, hc, hca]

/-- Closed witness for C4: empty collection, `rid = "x"`, command `"foo"`. -/
theorem runCommandNeverRaises_witness :
    (mkCommandRun [] "c1" "t1" (some "x") "check").output =
        "Record not found (it may have been deleted)." ∧
    (mkCommandRun [] "c1" "t1" (some "x") "foo").output =
        "Unknown command: " ++ "foo" ∧
    runCommand [] [] "c1" "t1" (some "x") "check" =
      (mkCommandRun [] "c1" "t1" (some "x") "check" :: ([] : List CommandRun)).take 200 ∧
    runCommand [] [] "c1" "t1" (some "x") "foo" =
      (mkCommandRun [] "c1" "t1" (some "x") "foo" :: ([] : List CommandRun)).take 200 :=
  runCommandNeverRaises [] [] "c1" "t1" "x" "foo" (by decide) (by simp)
    (by decide) (by decide)

/-! ### C3 — `"check:all"` output; the stored recordId is NOT always absent -/

/-- C3, counterexample to the claim as stated: running `"check:all"` with a
present `recordId` argument stores that argument in the resulting `CommandRun`
(`recordId: opts.recordId ?? null`), so the run is not recorded as global. -/
theorem checkAllStoredRecordIdNotAbsent :
    (mkCommandRun [] "c1" "t1" (some "rec_1") "check:all").recordId ≠ none := by
  simp [mkCommandRun]

/-- C3, amended: `"check:all"` ignores the `recordId` argument when computing
its output; the output is one line per record, in `list()` (newest-first)
order, of the form `id (value) → YES/NO: explanation`, joined by blank lines;
zero records give the empty output, not an error; the run is prepended to the
history; and the stored `recordId` is the argument as passed — so the run is
recorded as global exactly when the argument was absent (as it is at the one
`check:all` call site of the app). -/
theorem checkAllAmended :
    ∀ (records : List RecordItem) (commands : List CommandRun)
      (cmdId started : String) (recordId recordId' : Option String),
      (mkCommandRun records cmdId started recordId "check:all").output =
        String.intercalate "\n\n"
          (records.map (fun r =>
            r.id ++ " (" ++ toString r.value ++ ") → " ++
              (if (isCompositeProduct r.value).result then "YES" else "NO") ++
              ": " ++ (isCompositeProduct r.value).explanation)) ∧
      (mkCommandRun records cmdId started recordId "check:all").output =
        (mkCommandRun records cmdId started recordId' "check:all").output ∧
      (mkCommandRun [] cmdId started recordId "check:all").output = "" ∧
      (mkCommandRun records cmdId started recordId "check:all").recordId =
          recordId ∧
      runCommand records commands cmdId started recordId "check:all" =
        (mkCommandRun records cmdId started recordId "check:all" ::
          commands).take 200 := by
  intro records commands cmdId started recordId recordId'
  have hout : ∀ rid : Option String,
      (mkCommandRun records cmdId started rid "check:all").output =
        String.intercalate "\n\n"
          (records.map (fun r =>
            r.id ++ " (" ++ toString r.value ++ ") → " ++
              (if (isCompositeProduct r.value).result then "YES" else "NO") ++
              ": " ++ (isCompositeProduct r.value).explanation)) := by
    intro rid
    simp [mkCommandRun, commandOutput]
  refine ⟨hout recordId, ?_, ?_, rfl, rfl⟩
  · rw [hout recordId, hout recordId']
  · simp [mkCommandRun, commandOutput, String.intercalate]

/-! ### C7 — search: case-insensitive OR over label, value string, id -/

/-- C7: `searchRecords` with a blank (empty or whitespace-only) query returns
the whole collection unchanged; otherwise it keeps order (the result is a
sublist of the collection) and a record is returned iff at least one of its
lowercased label (when present), the decimal string of its value, or its
lowercased id contains the trimmed, case-folded query — `matchesQuery`, the OR
of the three containment tests. -/
theorem searchCaseInsensitiveOrFields :
    ∀ (records : List RecordItem) (query : String),
      (query.trim = "" → searchRecords records query = records) ∧
      List.Sublist (searchRecords records query) records ∧
      (∀ r, r ∈ searchRecords records query ↔
        r ∈ records ∧
          (query.trim ≠ "" →
            matchesQuery r (strToLower query.trim) = true)) := by
  intro records query
  by_cases hq : strToLower query.trim = ""
  · have htrim : query.trim = "" := (strToLower_eq_empty_iff _).mp hq
    have hall : searchRecords records query = records := by
      rw [searchRecords]
      simp [hq]
    refine ⟨fun _ => hall, ?_, ?_⟩
    · rw [hall]
    intro r
    rw [hall]
    simp [htrim]
  · have htrim : query.trim ≠ "" := fun h => hq (by rw [h]; rfl)
    have hfil : searchRecords records query =
        records.filter (fun r => matchesQuery r (strToLower query.trim)) := by
      rw [searchRecords]
      simp [hq]
    refine ⟨fun h => absurd h htrim, ?_, ?_⟩
    · rw [hfil]
      exact List.filter_sublist _
    intro r
    rw [hfil, List.mem_filter]
    simp [htrim]

/-! ### C6 — the history is bounded to the 200 most recent runs -/

/-- C6: every run prepends its `CommandRun` and truncates to 200 entries, so
after a batch of more than 200 runs the history has length exactly 200 and is
exactly the most recent 200 runs of the batch, newest first (the reversal of
the batch order, truncated at 200) — the older runs, and everything that was
in the history before the batch, have been evicted. -/
theorem historyBoundedToMostRecent200 :
    ∀ (records : List RecordItem) (commands : List CommandRun)
      (batch : List RunReq),
      200 < batch.length →
      (runMany records commands batch).length = 200 ∧
      runMany records commands batch =
        ((batch.map (reqRun records)).reverse).take 200 := by
  intro records commands batch hlen
  have hne : batch ≠ [] := by
    intro h
    rw [h] at hlen
    simp at hlen
  have hrev : 200 ≤ (batch.map (reqRun records)).reverse.length := by
    simp
    omega
  have heq : runMany records commands batch =
      ((batch.map (reqRun records)).reverse).take 200 := by
    rw [runMany_eq_take records batch commands hne,
      List.take_append_of_le_length hrev]
  refine ⟨?_, heq⟩
  rw [heq, List.length_take]
  simp
  omega

/-- Closed witness for C6: a batch of 201 identical requests on empty state. -/
theorem historyBoundedToMostRecent200_witness :
    (runMany [] [] (List.replicate 201 ⟨"c", "t", none, "noop"⟩)).length = 200 ∧
    runMany [] [] (List.replicate 201 ⟨"c", "t", none, "noop"⟩) =
      (((List.replicate 201 (⟨"c", "t", none, "noop"⟩ : RunReq)).map
        (reqRun [])).reverse).take 200 :=
  historyBoundedToMostRecent200 [] [] (List.replicate 201 ⟨"c", "t", none, "noop"⟩)
    (by rw [List.length_replicate]; omega)

/-! ### C1 — the composite check decides primality and reports the least factor -/

lemma findDivisor_some_spec : ∀ (n i0 i : Nat), findDivisor n i0 = some i →
    i0 ≤ i ∧ i * i ≤ n ∧ n % i = 0 ∧ ∀ j, i0 ≤ j → j < i → n % j ≠ 0 := by
  intro n i0
  induction i0 using findDivisor.induct n with
  | case1 i0 hle hmod =>
    intro i heq
    unfold findDivisor at heq
    rw [dif_pos hle, if_pos hmod] at heq
    injection heq with h
    subst h
    exact ⟨Nat.le_refl _, hle, hmod, fun j hj1 hj2 => by omega⟩
  | case2 i0 hle hmod ih =>
    intro i heq
    unfold findDivisor at heq
    rw [dif_pos hle, if_neg hmod] at heq
    obtain ⟨h1, h2, h3, h4⟩ := ih i heq
    refine ⟨by omega, h2, h3, ?_⟩
    intro j hj1 hj2
    rcases Nat.eq_or_lt_of_le hj1 with heq2 | hlt
    · rw [← heq2]
      exact hmod
    · exact h4 j hlt hj2
  | case3 i0 hgt =>
    intro i heq
    unfold findDivisor at heq
    rw [dif_neg hgt] at heq
    cases heq

lemma findDivisor_none_spec : ∀ (n i0 : Nat), findDivisor n i0 = none →
    ∀ j, i0 ≤ j → j * j ≤ n → n % j ≠ 0 := by
  intro n i0
  induction i0 using findDivisor.induct n with
  | case1 i0 hle hmod =>
    intro heq
    unfold findDivisor at heq
    rw [dif_pos hle, if_pos hmod] at heq
    cases heq
  | case2 i0 hle hmod ih =>
    intro heq j hj1 hj2
    unfold findDivisor at heq
    rw [dif_pos hle, if_neg hmod] at heq
    rcases Nat.eq_or_lt_of_le hj1 with heq2 | hlt
    · rw [← heq2]
      exact hmod
    · exact ih heq j hlt hj2
  | case3 i0 hgt =>
    intro heq j hj1 hj2
    exact absurd (Nat.le_trans (Nat.mul_le_mul hj1 hj1) hj2) hgt

lemma prime_of_findDivisor_none (N : Nat) (h4 : 4 ≤ N)
    (h : findDivisor N 2 = none) : N.Prime := by
  by_contra hnp
  have h0 : 0 < N := by omega
  have hsq : N.minFac ^ 2 ≤ N := Nat.minFac_sq_le_self h0 hnp
  rw [pow_two] at hsq
  have h2le : 2 ≤ N.minFac := (Nat.minFac_prime (by omega : N ≠ 1)).two_le
  have hmod : N % N.minFac = 0 := Nat.mod_eq_zero_of_dvd (Nat.minFac_dvd N)
  exact findDivisor_none_spec N 2 h N.minFac h2le hsq hmod

lemma not_prime_of_findDivisor_some (N i : Nat) (h4 : 4 ≤ N)
    (h : findDivisor N 2 = some i) : ¬ N.Prime := by
  obtain ⟨h2i, hsq, hmod, _⟩ := findDivisor_some_spec N 2 i h
  intro hp
  have hdvd : i ∣ N := Nat.dvd_of_mod_eq_zero hmod
  rcases hp.eq_one_or_self_of_dvd i hdvd with h1 | hiN
  · omega
  · subst hiN
    nlinarith

/-- C1: for every integer `n > 3`, the check returns `result = true` exactly
when `n` is not prime; and a true result's explanation is the string
`"n = i × (n/i)"` for the factor pair `(i, n/i)` where `i * (n/i) = n`,
`2 ≤ i ≤ n/i`, and `i` is the smallest divisor of `n` that is at least 2. -/
theorem compositeCheckMatchesPrimality :
    ∀ n : Int, 3 < n →
      ((isCompositeProduct n).result = true ↔ ¬ Nat.Prime n.toNat) ∧
      ((isCompositeProduct n).result = true ↔ ¬ Prime n) ∧
      ((isCompositeProduct n).result = true →
        ∃ i : Nat,
          (isCompositeProduct n).explanation =
            toString n ++ " = " ++ toString i ++ " × " ++
              toString (n.toNat / i) ∧
          i * (n.toNat / i) = n.toNat ∧
          2 ≤ i ∧ i ≤ n.toNat / i ∧ i ∣ n.toNat ∧
          ∀ j : Nat, 2 ≤ j → j ∣ n.toNat → i ≤ j) := by
  intro n h3
  have h4 : 4 ≤ n.toNat := by omega
  have hne : ¬ (n ≤ 3) := by omega
  have hnatabs : n.natAbs = n.toNat := by omega
  have hIntPrime : Prime n ↔ Nat.Prime n.toNat := by
    rw [Int.prime_iff_natAbs_prime, hnatabs]
  cases hfd : findDivisor n.toNat 2 with
  | none =>
    have hprime := prime_of_findDivisor_none _ h4 hfd
    have hres : isCompositeProduct n =
        { result := false,
          explanation := toString n ++
            " is prime — it cannot be expressed as product of two integers > 1." } := by
      rw [isCompositeProduct, if_neg hne, hfd]
    rw [hres]
    simp [hprime, hIntPrime]
  | some i =>
    have hnp := not_prime_of_findDivisor_some _ i h4 hfd
    obtain ⟨h2i, hsq, hmod, hmin⟩ := findDivisor_some_spec _ 2 i hfd
    have hdvd : i ∣ n.toNat := Nat.dvd_of_mod_eq_zero hmod
    have hres : isCompositeProduct n =
        { result := true,
          explanation := toString n ++ " = " ++ toString i ++ " × " ++
            toString (n.toNat / i) } := by
      rw [isCompositeProduct, if_neg hne, hfd]
    rw [hres]
    refine ⟨by simp [hnp, hIntPrime], by simp [hnp, hIntPrime], ?_⟩
    intro _
    refine ⟨i, rfl, Nat.mul_div_cancel' hdvd, h2i, ?_, hdvd, ?_⟩
    · rw [Nat.le_div_iff_mul_le (by omega : 0 < i)]
      exact hsq
    · intro j hj2 hjd
      by_contra hlt
      push_neg at hlt
      exact hmin j hj2 hlt (Nat.mod_eq_zero_of_dvd hjd)

/-- Closed witness for C1 at `n = 12` (composite: `12 = 2 × 6`). -/
theorem compositeCheckMatchesPrimality_witness :
    ((isCompositeProduct 12).result = true ↔ ¬ Nat.Prime (12 : Int).toNat) ∧
    ((isCompositeProduct 12).result = true ↔ ¬ Prime (12 : Int)) ∧
    ((isCompositeProduct 12).result = true →
      ∃ i : Nat,
        (isCompositeProduct 12).explanation =
          toString (12 : Int) ++ " = " ++ toString i ++ " × " ++
            toString ((12 : Int).toNat / i) ∧
        i * ((12 : Int).toNat / i) = (12 : Int).toNat ∧
        2 ≤ i ∧ i ≤ (12 : Int).toNat / i ∧ i ∣ (12 : Int).toNat ∧
        ∀ j : Nat, 2 ≤ j → j ∣ (12 : Int).toNat → i ≤ j) :=
  compositeCheckMatchesPrimality 12 (by decide)

/-! ### C8 — persistence round trip and soft-fail load -/

lemma hexVal_hexDigitChar : ∀ n < 16, hexVal (hexDigitChar n) = some n := by
  decide

lemma decode_quote (l acc : List Char) :
    decodeStringAux ('"' :: l) acc = some (String.mk acc.reverse, l) := by
  rw [decodeStringAux.eq_def]
  simp

lemma decode_esc_quote (l acc : List Char) :
    decodeStringAux ('\\' :: '"' :: l) acc = decodeStringAux l ('"' :: acc) := by
  rw [decodeStringAux.eq_def]
  simp

lemma decode_esc_bs (l acc : List Char) :
    decodeStringAux ('\\' :: '\\' :: l) acc = decodeStringAux l ('\\' :: acc) := by
  rw [decodeStringAux.eq_def]
  simp

lemma decode_esc_u (h1 h2 h3 h4 : Char) (v1 v2 v3 v4 : Nat) (l acc : List Char)
    (e1 : hexVal h1 = some v1) (e2 : hexVal h2 = some v2)
    (e3 : hexVal h3 = some v3) (e4 : hexVal h4 = some v4) :
    decodeStringAux ('\\' :: 'u' :: h1 :: h2 :: h3 :: h4 :: l) acc =
      decodeStringAux l
        (Char.ofNat (((v1 * 16 + v2) * 16 + v3) * 16 + v4) :: acc) := by
  rw [decodeStringAux.eq_def]
  simp [e1, e2, e3, e4]

lemma decode_lit (c : Char) (hc1 : c ≠ '"') (hc2 : c ≠ '\\')
    (l acc : List Char) :
    decodeStringAux (c :: l) acc = decodeStringAux l (c :: acc) := by
  rw [decodeStringAux.eq_def]
  simp [hc1, hc2]

lemma decodeStringAux_encode : ∀ (cs acc rest : List Char),
    decodeStringAux ((cs.map encodeChar).flatten ++ '"' :: rest) acc =
      some (String.mk (acc.reverse ++ cs), rest) := by
  intro cs
  induction cs with
  | nil =>
    intro acc rest
    simp [decode_quote]
  | cons c cs ih =>
    intro acc rest
    rw [List.map_cons, List.flatten_cons, List.append_assoc]
    by_cases h1 : c = '"'
    · subst h1
      have he : encodeChar '"' = ['\\', '"'] := rfl
      rw [he]
      simp only [List.cons_append, List.nil_append]
      rw [decode_esc_quote, ih]
      simp
    · by_cases h2 : c = '\\'
      · subst h2
        have he : encodeChar '\\' = ['\\', '\\'] := rfl
        rw [he]
        simp only [List.cons_append, List.nil_append]
        rw [decode_esc_bs, ih]
        simp
      · by_cases h3 : c.toNat < 32
        · have he : encodeChar c = ['\\', 'u', '0', '0',
              hexDigitChar (c.toNat / 16), hexDigitChar (c.toNat % 16)] := by
            simp [encodeChar, h1, h2, h3]
          rw [he]
          simp only [List.cons_append, List.nil_append]
          have hv0 : hexVal '0' = some 0 := by decide
          rw [decode_esc_u _ _ _ _ 0 0 (c.toNat / 16) (c.toNat % 16) _ _
            hv0 hv0 (hexVal_hexDigitChar _ (by omega))
            (hexVal_hexDigitChar _ (by omega))]
          have hval : ((0 * 16 + 0) * 16 + c.toNat / 16) * 16 + c.toNat % 16 =
              c.toNat := by omega
          rw [hval, Char.ofNat_toNat, ih]
          simp
        · have he : encodeChar c = [c] := by simp [encodeChar, h1, h2, h3]
          rw [he]
          simp only [List.cons_append, List.nil_append]
          rw [decode_lit c h1 h2, ih]
          simp

lemma parseJString_encodeString (s : String) (rest : List Char) :
    parseJString (encodeString s ++ rest) = some (s, rest) := by
  rw [encodeString]
  simp only [List.cons_append, List.append_assoc, List.singleton_append]
  rw [parseJString]
  rw [decodeStringAux_encode]
  rfl

lemma hexDigitChar_isDigit : ∀ m < 10, (hexDigitChar m).isDigit = true := by
  decide

lemma hexDigitChar_val : ∀ m < 10, (hexDigitChar m).toNat - 48 = m := by
  decide

lemma natDigits_ne_nil (n : Nat) : natDigits n ≠ [] := by
  rw [natDigits.eq_def]
  split <;> simp

lemma natDigits_all_digit : ∀ n, ∀ c ∈ natDigits n, c.isDigit = true := by
  intro n
  induction n using natDigits.induct with
  | case1 n h =>
    rw [natDigits.eq_def, dif_pos h]
    intro c hc
    rw [List.mem_singleton] at hc
    subst hc
    exact hexDigitChar_isDigit n h
  | case2 n h ih =>
    rw [natDigits.eq_def, dif_neg h]
    intro c hc
    rw [List.mem_append] at hc
    rcases hc with hc | hc
    · exact ih c hc
    · rw [List.mem_singleton] at hc
      subst hc
      exact hexDigitChar_isDigit _ (by omega)

lemma natDigits_foldl : ∀ n acc,
    (natDigits n).foldl (fun a c => a * 10 + (c.toNat - 48)) acc =
      acc * 10 ^ (natDigits n).length + n := by
  intro n
  induction n using natDigits.induct with
  | case1 n h =>
    intro acc
    rw [natDigits.eq_def, dif_pos h]
    simp [hexDigitChar_val n h]
  | case2 n h ih =>
    intro acc
    rw [natDigits.eq_def, dif_neg h]
    rw [List.foldl_append, ih, List.length_append]
    simp only [List.foldl_cons, List.foldl_nil, List.length_singleton]
    rw [hexDigitChar_val (n % 10) (by omega)]
    have hdm : n / 10 * 10 + n % 10 = n := by omega
    calc (acc * 10 ^ (natDigits (n / 10)).length + n / 10) * 10 + n % 10
        = acc * (10 ^ (natDigits (n / 10)).length * 10) +
            (n / 10 * 10 + n % 10) := by ring
      _ = acc * 10 ^ ((natDigits (n / 10)).length + 1) + n := by
          rw [hdm, pow_succ]

lemma parseDigitsAux_append : ∀ (ds : List Char),
    (∀ c ∈ ds, c.isDigit = true) → ∀ (rest : List Char),
    (∀ c, rest.head? = some c → c.isDigit = false) → ∀ acc,
    parseDigitsAux (ds ++ rest) acc =
      (ds.foldl (fun a c => a * 10 + (c.toNat - 48)) acc, rest) := by
  intro ds
  induction ds with
  | nil =>
    intro _ rest hrest acc
    rw [List.nil_append, List.foldl_nil]
    cases rest with
    | nil => rw [parseDigitsAux.eq_def]
    | cons c t =>
      rw [parseDigitsAux.eq_def]
      simp [hrest c rfl]
  | cons d ds ih =>
    intro hds rest hrest acc
    have hd : d.isDigit = true := hds d (List.mem_cons_self _ _)
    rw [List.cons_append, parseDigitsAux.eq_def]
    simp only [hd, if_true, List.foldl_cons]
    exact ih (fun c hc => hds c (List.mem_cons_of_mem _ hc)) rest hrest _

lemma parseNatChars_natDigits (n : Nat) (rest : List Char)
    (hrest : ∀ c, rest.head? = some c → c.isDigit = false) :
    parseNatChars (natDigits n ++ rest) = some (n, rest) := by
  have hall := natDigits_all_digit n
  cases hnd : natDigits n with
  | nil => exact absurd hnd (natDigits_ne_nil n)
  | cons d ds =>
    have hd : d.isDigit = true := hall d (by rw [hnd]; exact List.mem_cons_self _ _)
    have hds : ∀ c ∈ ds, c.isDigit = true := fun c hc =>
      hall c (by rw [hnd]; exact List.mem_cons_of_mem _ hc)
    have hf := natDigits_foldl n 0
    rw [hnd, List.foldl_cons] at hf
    rw [List.cons_append, parseNatChars.eq_def]
    simp only [hd, if_true]
    rw [parseDigitsAux_append ds hds rest hrest]
    simp only [Nat.zero_mul, Nat.zero_add] at hf
    rw [hf]

lemma parseIntChars_intChars (i : Int) (rest : List Char)
    (hrest : ∀ c, rest.head? = some c → c.isDigit = false) :
    parseIntChars (intChars i ++ rest) = some (i, rest) := by
  by_cases hneg : i < 0
  · rw [intChars, if_pos hneg, List.cons_append, parseIntChars.eq_def]
    simp only []
    rw [parseNatChars_natDigits i.natAbs rest hrest]
    have h2 : -((i.natAbs : Nat) : Int) = i := by omega
    show (some (-((i.natAbs : Nat) : Int), rest) : Option (Int × List Char)) =
      some (i, rest)
    rw [h2]
  · rw [intChars, if_neg hneg]
    cases hnd : natDigits i.toNat with
    | nil => exact absurd hnd (natDigits_ne_nil _)
    | cons d ds =>
      have hd : d.isDigit = true :=
        natDigits_all_digit _ d (by rw [hnd]; exact List.mem_cons_self _ _)
      have hdneq : d ≠ '-' := by
        intro h
        subst h
        exact absurd hd (by decide)
      rw [List.cons_append, parseIntChars.eq_def]
      split
      · rename_i r heq
        exfalso
        injection heq with h1 h2
        exact hdneq h1
      · rw [← List.cons_append, ← hnd, parseNatChars_natDigits i.toNat rest hrest]
        have h2 : ((i.toNat : Nat) : Int) = i := by omega
        show (some (((i.toNat : Nat) : Int), rest) : Option (Int × List Char)) =
          some (i, rest)
        rw [h2]

lemma expectLit_append : ∀ (lit l : List Char), expectLit lit (lit ++ l) = some l := by
  intro lit
  induction lit with
  | nil => intro l; rfl
  | cons c lit ih =>
    intro l
    rw [List.cons_append]
    simp [expectLit, ih]

lemma expectLit_idKey (X : List Char) :
    expectLit ['{', '"', 'i', 'd', '"', ':']
      ('{' :: '"' :: 'i' :: 'd' :: '"' :: ':' :: X) = some X := rfl

lemma expectLit_labelKey (X : List Char) :
    expectLit [',', '"', 'l', 'a', 'b', 'e', 'l', '"', ':']
      (',' :: '"' :: 'l' :: 'a' :: 'b' :: 'e' :: 'l' :: '"' :: ':' :: X) =
      some X := rfl

lemma expectLit_valueKey (X : List Char) :
    expectLit [',', '"', 'v', 'a', 'l', 'u', 'e', '"', ':']
      (',' :: '"' :: 'v' :: 'a' :: 'l' :: 'u' :: 'e' :: '"' :: ':' :: X) =
      some X := rfl

lemma expectLit_createdKey (X : List Char) :
    expectLit [',', '"', 'c', 'r', 'e', 'a', 't', 'e', 'd', 'A', 't', '"', ':']
      (',' :: '"' :: 'c' :: 'r' :: 'e' :: 'a' :: 't' :: 'e' :: 'd' :: 'A' ::
        't' :: '"' :: ':' :: X) = some X := rfl

lemma labelKey_value_mismatch (X : List Char) :
    expectLit [',', '"', 'l', 'a', 'b', 'e', 'l', '"', ':']
      (',' :: '"' :: 'v' :: 'a' :: 'l' :: 'u' :: 'e' :: '"' :: ':' :: X) =
      none := rfl

lemma finishRecord_encode (idS : String) (lab : Option String) (v : Int)
    (ts : String) (rest : List Char) :
    finishRecord idS lab
      (',' :: '"' :: 'v' :: 'a' :: 'l' :: 'u' :: 'e' :: '"' :: ':' ::
        (intChars v ++
          (',' :: '"' :: 'c' :: 'r' :: 'e' :: 'a' :: 't' :: 'e' :: 'd' ::
            'A' :: 't' :: '"' :: ':' :: (encodeString ts ++ '}' :: rest)))) =
      some ({ id := idS, label := lab, value := v, createdAt := ts }, rest) := by
  have hrest : ∀ c,
      ((',' :: '"' :: 'c' :: 'r' :: 'e' :: 'a' :: 't' :: 'e' :: 'd' :: 'A' ::
        't' :: '"' :: ':' :: (encodeString ts ++ '}' :: rest)) :
          List Char).head? = some c → c.isDigit = false := by
    intro c hc
    rw [List.head?_cons] at hc
    injection hc with h
    subst h
    decide
  have hint := parseIntChars_intChars v
    (',' :: '"' :: 'c' :: 'r' :: 'e' :: 'a' :: 't' :: 'e' :: 'd' :: 'A' ::
      't' :: '"' :: ':' :: (encodeString ts ++ '}' :: rest)) hrest
  simp [finishRecord, expectLit_valueKey, expectLit_createdKey, hint,
    parseJString_encodeString]

lemma parseRecord_encode (r : RecordItem) (rest : List Char) :
    parseRecord (encodeRecord r ++ rest) = some (r, rest) := by
  obtain ⟨rid, rlab, rval, rts⟩ := r
  cases rlab with
  | none =>
    simp only [encodeRecord, List.append_assoc, List.nil_append]
    simp [parseRecord, expectLit_idKey, parseJString_encodeString,
      labelKey_value_mismatch, finishRecord_encode]
  | some lab =>
    simp only [encodeRecord, List.append_assoc]
    simp [parseRecord, expectLit_idKey, expectLit_labelKey,
      parseJString_encodeString, finishRecord_encode]

lemma joinComma_cons_cons (x y : List Char) (ys : List (List Char)) :
    joinComma (x :: y :: ys) = x ++ ',' :: joinComma (y :: ys) := by
  rw [joinComma]
  simp

lemma joinComma_length_ge : ∀ ls : List (List Char),
    ls.length ≤ (joinComma ls).length + 1 := by
  intro ls
  induction ls with
  | nil => simp [joinComma]
  | cons x xs ih =>
    cases xs with
    | nil => simp [joinComma]
    | cons y ys =>
      rw [joinComma_cons_cons]
      simp only [List.length_cons, List.length_append] at ih ⊢
      omega

lemma encodeRecord_head (r : RecordItem) : ∃ t, encodeRecord r = '{' :: t := by
  rw [encodeRecord, show ("\x7b\"id\":").toList = '{' :: ("\"id\":").toList from rfl]
  simp only [List.cons_append, List.append_assoc]
  exact ⟨_, rfl⟩

lemma joinComma_cons_head (x : List Char) (c : Char) (t : List Char)
    (X : List (List Char)) (hx : x = c :: t) :
    ∃ u, joinComma (x :: X) = c :: u := by
  cases X with
  | nil => exact ⟨t, by simp [joinComma, hx]⟩
  | cons y ys =>
    refine ⟨t ++ ',' :: joinComma (y :: ys), ?_⟩
    rw [joinComma_cons_cons, hx, List.cons_append]

lemma parseItems_encode : ∀ (rs : List RecordItem) (fuel : Nat), rs ≠ [] →
    rs.length ≤ fuel →
    parseItems fuel (joinComma (rs.map encodeRecord) ++ [']']) = some rs := by
  intro rs
  induction rs with
  | nil => intro fuel h _; exact absurd rfl h
  | cons r rs ih =>
    intro fuel _ hlen
    cases fuel with
    | zero => simp at hlen
    | succ f =>
      cases rs with
      | nil =>
        rw [List.map_cons, List.map_nil, joinComma, parseItems]
        rw [parseRecord_encode r [']']]
        rfl
      | cons r2 rs2 =>
        have hlen2 : (r2 :: rs2).length ≤ f := by
          simp only [List.length_cons] at hlen ⊢
          omega
        have hne2 : (r2 :: rs2 : List RecordItem) ≠ [] := by simp
        have ih2 := ih f hne2 hlen2
        simp only [List.map_cons] at ih2 ⊢
        rw [joinComma_cons_cons, List.append_assoc, List.cons_append, parseItems]
        rw [parseRecord_encode r (',' :: (joinComma (encodeRecord r2 ::
          List.map encodeRecord rs2) ++ [']']))]
        simp [ih2]

lemma parseRecords_stringify : ∀ rs : List RecordItem,
    parseRecords (stringifyRecords rs) = some rs := by
  intro rs
  cases rs with
  | nil => rfl
  | cons r rs =>
    have hl : (stringifyRecords (r :: rs)).toList =
        '[' :: (joinComma ((r :: rs).map encodeRecord) ++ [']']) := rfl
    rw [parseRecords.eq_def, hl]
    obtain ⟨t0, ht0⟩ := encodeRecord_head r
    obtain ⟨u, hu⟩ := joinComma_cons_head (encodeRecord r) '{' t0
      (List.map encodeRecord rs) ht0
    split
    · rename_i rest heq
      injection heq with heq1 heq2
      subst heq2
      split
      · rename_i heq2
        rw [List.map_cons, hu, List.cons_append] at heq2
        simp at heq2
      · rw [parseItems_encode (r :: rs) _ (by simp) ?_]
        have h1 := joinComma_length_ge ((r :: rs).map encodeRecord)
        simp only [List.length_cons, List.length_map] at h1
        simp only [List.length_append, List.length_cons]
        omega
    · rename_i hno
      exact absurd rfl (hno _)

/-- C8: `load` never raises — an absent stored value, an empty raw string, and
any text the parser rejects (malformed, or not the expected shape) all yield
the empty collection; and for every collection, `save` followed by `load`
reproduces the collection exactly (value equality). -/
theorem persistenceRoundTripAndSoftFail :
    ∀ (rs : List RecordItem) (raw : String),
      parseRecords (stringifyRecords rs) = some rs ∧
      loadRecords (saveRecords rs) = rs ∧
      loadRecords none = [] ∧
      (parseRecords raw = none → loadRecords (some raw) = []) := by
  intro rs raw
  refine ⟨parseRecords_stringify rs, ?_, rfl, ?_⟩
  · rw [saveRecords, loadRecords]
    have hne : stringifyRecords rs ≠ "" := by
      intro h
      have h2 : (stringifyRecords rs).toList = "".toList := by rw [h]
      rw [show (stringifyRecords rs).toList = encodeRecords rs from rfl,
        encodeRecords] at h2
      simp at h2
    rw [if_neg hne, parseRecords_stringify rs]
  · intro hraw
    rw [loadRecords]
    by_cases h : raw = ""
    · rw [if_pos h]
    · rw [if_neg h, hraw]
